import Mathlib

/-! chron: EGA colour mapper and packed texture store

A shallow embedding of `libchron/EGA.c` (colour table, texture lifecycle,
decode loop) and of the allocation-report key functions of
`libutils/CheckedMemory.c`.  Machine integers are natural numbers; `u32` marks every place
where the C code computes in 32-bit unsigned arithmetic.  Heap buffers are
`Option (List _)`, `none` being the NULL pointer.  Functions whose C
counterpart can run into undefined behaviour (out-of-bounds access, NULL
dereference) return `Option`, `none` standing for that undefined behaviour.
-/

namespace Chron

/-! ## Definitions -/

/-- Reduction of a natural number to the range of the C type `u32`. -/
def u32 (n : Nat) : Nat := n % 2 ^ 32

/-- The C struct `ColorRGB`: three byte channels. -/
structure ColorRGB where
  r : Nat
  g : Nat
  b : Nat
deriving DecidableEq, Repr

/-- Modelled from the spec: the constant `EGA_COLORS` of `EGA.h` (a header that
is not part of the sources at hand); the spec speaks of a 64-entry table over
the 6-bit colour codes. -/
def EGA_COLORS : Nat := 64

/-- Modelled from the spec: `getBit` of `libutils/BitTwiddling.h` (a header that
is not part of the sources at hand); the spec uses its result as one bit of a
2-bit index, so it is the value, 0 or 1, of bit `pos` of `v`. -/
def getBit (v pos : Nat) : Nat := (v >>> pos) &&& 1

/-- The local array `rgbLookup` of `_buildColorTable`. -/
def rgbLookup : List Nat := [0, 85, 170, 255]

/-- Body of the `for` loop of `_buildColorTable` for the code `i`: `shift`
starts at 5 and is decremented after each of the first five `getBit` calls.
The indices `(R << 1) + r` are at most 3, so the reads of `rgbLookup` are
always in bounds. -/
def colorOfCode (i : Nat) : ColorRGB :=
  let r := getBit i 5
  let g := getBit i 4
  let b := getBit i 3
  let R := getBit i 2
  let G := getBit i 1
  let B := getBit i 0
  let rgb_r := rgbLookup.getD ((R <<< 1) + r) 0
  let rgb_g := rgbLookup.getD ((G <<< 1) + g) 0
  let rgb_b := rgbLookup.getD ((B <<< 1) + b) 0
  { r := rgb_r, g := rgb_g, b := rgb_b }

/-- The function `_buildColorTable`: for `i = 0 .. EGA_COLORS - 1` it stores
the colour of code `i` at `table[i]`. -/
def _buildColorTable (table : List ColorRGB) : List ColorRGB :=
  (List.range EGA_COLORS).foldl (fun t i => t.set i (colorOfCode i)) table

/-- The two function-local statics of `egaGetColor`. -/
structure ColorStatics where
  lookup : List ColorRGB
  loaded : Bool
deriving DecidableEq, Repr

/-- The statics at program start: `lookup` zero-filled, `loaded` false. -/
def ColorStatics.initial : ColorStatics :=
  { lookup := List.replicate EGA_COLORS { r := 0, g := 0, b := 0 }, loaded := false }

/-- The function `egaGetColor`, with its statics passed in and out.  The read
`lookup[c]` is out of bounds for `c ≥ EGA_COLORS`; the result is then `none`. -/
def egaGetColor (st : ColorStatics) (c : Nat) : Option (ColorRGB × ColorStatics) :=
  let st1 : ColorStatics :=
    if !st.loaded then { lookup := _buildColorTable st.lookup, loaded := true } else st
  match st1.lookup[c]? with
  | some rgb => some (rgb, st1)
  | none => none

/-- The states of the statics that a program can be in: the initial one, and
every state left behind by a call of `egaGetColor`. -/
inductive ColorStatics.Reachable : ColorStatics → Prop
  | start : ColorStatics.Reachable ColorStatics.initial
  | call {st st1 : ColorStatics} {c : Nat} {rgb : ColorRGB} :
      ColorStatics.Reachable st → egaGetColor st c = some (rgb, st1) →
      ColorStatics.Reachable st1

/-- The bit-to-channel mapping in the words of the specification: bit `k` of a
code, and the channel value of a high/low bit pair through the table
`{0, 85, 170, 255}`. -/
def specBit (c k : Nat) : Nat := c / 2 ^ k % 2

/-- The specification's four-entry channel table, indexed by `2 * high + low`. -/
def specChannel (high low : Nat) : Nat := [0, 85, 170, 255].getD (2 * high + low) 0

/-- The specification's colour of a 6-bit code: bits 5, 4, 3 are the low
r, g, b bits and bits 2, 1, 0 the high R, G, B bits. -/
def specColor (c : Nat) : ColorRGB :=
  { r := specChannel (specBit c 2) (specBit c 5),
    g := specChannel (specBit c 1) (specBit c 4),
    b := specChannel (specBit c 0) (specBit c 3) }

/-- Modelled from the spec: the struct `ColorRGBA` of `Renderer.h` (a header
that is not part of the sources at hand): an RGBA quad of four byte channels,
laid out in the order r, g, b, a. -/
structure ColorRGBA where
  r : Nat
  g : Nat
  b : Nat
  a : Nat
deriving DecidableEq, Repr

/-- Modelled from the spec: the struct `EGARegion` of `EGA.h` (a header that is
not part of the sources at hand): an axis-aligned rectangle (left, top, width,
height). -/
structure EGARegion where
  left : Nat
  top : Nat
  width : Nat
  height : Nat
deriving DecidableEq, Repr

/-- Modelled from the spec: the struct `EGAPalette` of `EGA.h` (a header that is
not part of the sources at hand): an ordered mapping `colors` from a 4-bit
palette index to a colour code. -/
structure EGAPalette where
  colors : List Nat
deriving DecidableEq, Repr

/-- Modelled from the spec: the backend `Texture` of `Renderer.h` (not part of
the sources at hand): a texture of a fixed size holding the RGBA content that
was last pushed into it (nothing right after its creation). -/
structure Texture where
  w : Nat
  h : Nat
  pixels : List ColorRGBA
deriving DecidableEq, Repr

/-- Modelled from the spec: `textureCreateCustom` of the renderer (not part of
the sources at hand) creates the backing texture sized `w × h`; addressing is
always clamped and filtering always linear here, so they are not recorded. -/
def textureCreateCustom (w h : Nat) : Texture := { w := w, h := h, pixels := [] }

/-- Modelled from the spec: `textureSetPixels` of the renderer (not part of the
sources at hand) pushes the content of the scratch buffer into the texture. -/
def textureSetPixels (t : Texture) (buf : List ColorRGBA) : Texture := { t with pixels := buf }

/-- The C struct `EGATexture`.  Pointers are options, `none` being NULL. -/
structure EGATexture where
  w : Nat
  h : Nat
  fullRegion : EGARegion
  alphaSLWidth : Nat
  pixelSLWidth : Nat
  pixelCount : Nat
  alphaChannel : Option (List Nat)
  pixelData : Option (List Nat)
  pixelDataOffset : Option (List Nat)
  decoded : Option Texture
  decodePixels : Option (List ColorRGBA)
  offsetDirty : Bool
  decodeDirty : Bool
deriving DecidableEq, Repr

/-- The function `checkedCallocImpl` for a byte buffer: `calloc(count, sz)`
gives `count * sz` zero bytes.  The allocation is taken to succeed; the leak
bookkeeping of `CheckedMemory.c` does not touch the buffer. -/
def checkedCalloc (count sz : Nat) : Option (List Nat) :=
  some (List.replicate (count * sz) 0)

/-- The function `checkedCallocImpl` at the call
`checkedCalloc(pixelCount, sizeof(ColorRGBA))`: `count` zero-filled quads. -/
def checkedCallocRGBA (count : Nat) : Option (List ColorRGBA) :=
  some (List.replicate count { r := 0, g := 0, b := 0, a := 0 })

/-- A zero-filled `EGATexture`, as `checkedCalloc(1, sizeof(EGATexture))`
returns it in `egaTextureCreate`. -/
def EGATexture.zeroed : EGATexture :=
  { w := 0, h := 0, fullRegion := { left := 0, top := 0, width := 0, height := 0 },
    alphaSLWidth := 0, pixelSLWidth := 0, pixelCount := 0,
    alphaChannel := none, pixelData := none, pixelDataOffset := none,
    decoded := none, decodePixels := none, offsetDirty := false, decodeDirty := false }

/-- The function `_freeTextureBuffers`: every owned buffer that is present is
released and its pointer set to NULL. -/
def _freeTextureBuffers (self : EGATexture) : EGATexture :=
  let self := if self.alphaChannel.isSome then { self with alphaChannel := none } else self
  let self := if self.decoded.isSome then { self with decoded := none } else self
  let self := if self.decodePixels.isSome then { self with decodePixels := none } else self
  let self := if self.pixelData.isSome then { self with pixelData := none } else self
  let self := if self.pixelDataOffset.isSome then { self with pixelDataOffset := none } else self
  self

/-- The function `egaTextureResize`; `width` and `height` are `u32` values. -/
def egaTextureResize (self : EGATexture) (width height : Nat) : EGATexture :=
  if width = self.w ∧ height = self.h then self
  else
    let self := _freeTextureBuffers self
    let self := { self with w := width }
    let self := { self with h := height }
    let self := { self with pixelCount := u32 (self.w * self.h) }
    let self := { self with fullRegion := { left := 0, top := 0, width := self.w, height := self.h } }
    let self := { self with
      alphaSLWidth := u32 ((self.w >>> 3) + (if self.w &&& 7 ≠ 0 then 1 else 0)) }
    let self := { self with
      pixelSLWidth := u32 ((self.w >>> 1) + (if self.w &&& 1 ≠ 0 then 0 else 1)) }
    let self := { self with alphaChannel := checkedCalloc self.h self.alphaSLWidth }
    { self with pixelData := checkedCalloc self.h self.pixelSLWidth }

/-- The function `egaTextureCreate`. -/
def egaTextureCreate (width height : Nat) : EGATexture :=
  egaTextureResize EGATexture.zeroed width height

/-- The accessor `egaTextureGetWidth`. -/
def egaTextureGetWidth (self : EGATexture) : Nat := self.w

/-- The accessor `egaTextureGetHeight`. -/
def egaTextureGetHeight (self : EGATexture) : Nat := self.h

/-- The accessor `egaTextureGetFullRegion`. -/
def egaTextureGetFullRegion (self : EGATexture) : EGARegion := self.fullRegion

/-- What `memset(p, 0, n)` does to the quad at position `i` of a `ColorRGBA`
array: the quad occupies the bytes `4*i .. 4*i+3`, and a byte is cleared when
its offset is below `n`. -/
def memsetQuad (n i : Nat) (p : ColorRGBA) : ColorRGBA :=
  { r := if 4 * i < n then 0 else p.r,
    g := if 4 * i + 1 < n then 0 else p.g,
    b := if 4 * i + 2 < n then 0 else p.b,
    a := if 4 * i + 3 < n then 0 else p.a }

/-- The call `memset(buf, 0, n)` on a `ColorRGBA` array: the first `n` bytes are
cleared.  Writing past the end of the array is undefined (`none`). -/
def memsetZero (buf : List ColorRGBA) (n : Nat) : Option (List ColorRGBA) :=
  if n ≤ 4 * buf.length then some (buf.mapIdx (memsetQuad n)) else none

/-- Body of the inner `for` loop of `egaTextureDecode` at column `x`, with
the scanline positions `asl`, `psl`, `dsl` of the current row.  The state is
the colour statics and the scratch buffer. -/
def decodePixel (self : EGATexture) (palette : EGAPalette) (asl psl dsl : Nat)
    (acc : ColorStatics × List ColorRGBA) (x : Nat) :
    Option (ColorStatics × List ColorRGBA) := do
  let alpha ← self.alphaChannel
  let a ← alpha[u32 (asl + (x >>> 3))]?
  if a &&& (1 <<< (x &&& 7)) ≠ 0 then
    let pd ← self.pixelData
    let twoPix ← pd[u32 (psl + (x >>> 1))]?
    let pIdx := if x &&& 1 ≠ 0 then twoPix >>> 4 else twoPix &&& 15
    let c ← palette.colors[pIdx]?
    let res ← egaGetColor acc.1 c
    if u32 (dsl + x) < acc.2.length then
      some (res.2, acc.2.set (u32 (dsl + x)) { r := res.1.r, g := res.1.g, b := res.1.b, a := 255 })
    else none
  else
    some acc

/-- The state of the outer `for` loop of `egaTextureDecode`. -/
structure DecodeLoop where
  asl : Nat
  psl : Nat
  dsl : Nat
  acc : ColorStatics × List ColorRGBA

/-- Body of the outer `for` loop of `egaTextureDecode`: the inner loop over
`x = 0 .. w-1`, then the three scanline positions advance (in `u32`). -/
def decodeRow (self : EGATexture) (palette : EGAPalette) (s : DecodeLoop) (_y : Nat) :
    Option DecodeLoop := do
  let acc ← (List.range self.w).foldlM (decodePixel self palette s.asl s.psl s.dsl) s.acc
  some { asl := u32 (s.asl + self.alphaSLWidth),
         psl := u32 (s.psl + self.pixelSLWidth),
         dsl := u32 (s.dsl + self.w),
         acc := acc }

/-- The function `egaTextureDecode`, with the colour statics passed in and out.
The result is the returned backend handle, the texture afterwards and the
statics afterwards; `none` stands for undefined behaviour. -/
def egaTextureDecode (st : ColorStatics) (self : EGATexture) (palette : EGAPalette) :
    Option (Texture × EGATexture × ColorStatics) := do
  let self :=
    if self.decoded.isNone then
      { self with decoded := some (textureCreateCustom self.w self.h) }
    else self
  let self :=
    if self.decodePixels.isNone then
      { self with decodePixels := checkedCallocRGBA self.pixelCount }
    else self
  if self.decodeDirty then
    let buf ← self.decodePixels
    let buf ← memsetZero buf self.pixelCount
    let fin ← (List.range self.h).foldlM (decodeRow self palette)
      { asl := 0, psl := 0, dsl := 0, acc := (st, buf) }
    let tex ← self.decoded
    let tex := textureSetPixels tex fin.acc.2
    some (tex, { self with decodePixels := some fin.acc.2, decoded := some tex,
                           decodeDirty := false }, fin.acc.1)
  else
    let tex ← self.decoded
    some (tex, self, st)

/-- The table built from the zero-filled static array, entry by entry. -/
def builtTable : List ColorRGB := _buildColorTable ColorStatics.initial.lookup

/-- The state of the statics once the table has been built. -/
def ColorStatics.built : ColorStatics := { lookup := builtTable, loaded := true }

/-- In the words of the specification: pixel `(x,y)` is opaque when bit `x & 7`
of the alpha byte `y * alphaSLWidth + (x >> 3)` is set. -/
def alphaBitSet (self : EGATexture) (alpha : List Nat) (x y : Nat) : Bool :=
  (alpha.getD (y * self.alphaSLWidth + x / 8) 0).testBit (x % 8)

/-- In the words of the specification: the palette index of pixel `(x,y)` is the
low nibble of the byte `y * pixelSLWidth + (x >> 1)` if `x` is even and its
high nibble if `x` is odd. -/
def paletteIndexAt (self : EGATexture) (pd : List Nat) (x y : Nat) : Nat :=
  if x % 2 = 0 then pd.getD (y * self.pixelSLWidth + x / 2) 0 % 16
  else pd.getD (y * self.pixelSLWidth + x / 2) 0 / 16

/-- In the words of the specification: the RGBA quad of an opaque pixel, its
palette entry mapped to a colour, with alpha 255. -/
def solidQuad (self : EGATexture) (palette : EGAPalette) (pd : List Nat) (x y : Nat) :
    ColorRGBA :=
  { r := (specColor (palette.colors.getD (paletteIndexAt self pd x y) 0)).r,
    g := (specColor (palette.colors.getD (paletteIndexAt self pd x y) 0)).g,
    b := (specColor (palette.colors.getD (paletteIndexAt self pd x y) 0)).b,
    a := 255 }

/-- What a recomputing Decode needs of the texture and the palette for every
access of the unpack loop to be within bounds. -/
structure DecodeReady (t : EGATexture) (palette : EGAPalette)
    (alpha pd : List Nat) : Prop where
  alphaBuf : t.alphaChannel = some alpha
  pixelBuf : t.pixelData = some pd
  alphaLen : alpha.length = t.h * t.alphaSLWidth
  alphaFit : t.w ≤ 8 * t.alphaSLWidth
  alphaSmall : alpha.length ≤ 2 ^ 32
  pixelSmall : pd.length ≤ 2 ^ 32
  pixelBytes : ∀ v ∈ pd, v < 256
  solidRead : ∀ x y, x < t.w → y < t.h → alphaBitSet t alpha x y = true →
    y * t.pixelSLWidth + x / 2 < pd.length
  count : t.pixelCount = t.w * t.h
  small : t.w * t.h < 2 ^ 32
  scratch : ∀ buf, t.decodePixels = some buf → buf.length = t.pixelCount
  paletteLen : palette.colors.length = 16
  paletteCodes : ∀ c ∈ palette.colors, c < 64

/-- The state of the unpack loop after the first `k` pixels in row-major order:
the statics are reachable, and the scratch buffer holds the decoded quad at the
opaque ones among these `k` pixels and the content of `base` elsewhere. -/
def DecodedUpTo (self : EGATexture) (palette : EGAPalette) (alpha pd : List Nat)
    (base : List ColorRGBA) (k : Nat) (acc : ColorStatics × List ColorRGBA) : Prop :=
  ColorStatics.Reachable acc.1 ∧ acc.2.length = base.length ∧
    ∀ i, acc.2[i]? =
      if i < k ∧ alphaBitSet self alpha (i % self.w) (i / self.w) = true then
        some (solidQuad self palette pd (i % self.w) (i / self.w))
      else base[i]?

/-- The state of the outer loop of the unpack loop before row `y`. -/
def RowsDone (self : EGATexture) (palette : EGAPalette) (alpha pd : List Nat)
    (base : List ColorRGBA) (y : Nat) (s : DecodeLoop) : Prop :=
  s.asl = u32 (y * self.alphaSLWidth) ∧ s.psl = u32 (y * self.pixelSLWidth)
    ∧ s.dsl = u32 (y * self.w) ∧ DecodedUpTo self palette alpha pd base (y * self.w) s.acc

/-- The texture after the two lazy allocations at the head of
`egaTextureDecode`. -/
def afterLazyAlloc (self : EGATexture) : EGATexture :=
  { self with
    decoded := some (self.decoded.getD (textureCreateCustom self.w self.h)),
    decodePixels := some (self.decodePixels.getD
      (List.replicate self.pixelCount { r := 0, g := 0, b := 0, a := 0 })) }

/-- The scratch buffer with which a recomputing Decode enters its loop: the
buffer held before the call (a fresh zero-filled one if there was none), after
`memset(decodePixels, 0, pixelCount)`. -/
def clearedScratch (self : EGATexture) : List ColorRGBA :=
  (self.decodePixels.getD
    (List.replicate self.pixelCount { r := 0, g := 0, b := 0, a := 0 })).mapIdx
      (memsetQuad self.pixelCount)

/-- A sample texture: 2 x 1 as `egaTextureCreate(2,1)` sizes it, pixel (1,0)
opaque with palette index 3, marked for recomputation. -/
def sampleTexture : EGATexture :=
  { egaTextureCreate 2 1 with
    alphaChannel := some [2], pixelData := some [48, 0], decodeDirty := true }

/-- A sample palette: index `i` maps to the colour code `4 * i`. -/
def samplePalette : EGAPalette :=
  { colors := [0, 4, 8, 12, 16, 20, 24, 28, 32, 36, 40, 44, 48, 52, 56, 60] }

/-- A sample texture: 2 x 1, fully transparent, marked for recomputation, whose
scratch buffer still holds the quads of an earlier decode in which both pixels
were opaque. -/
def staleTexture : EGATexture :=
  { egaTextureCreate 2 1 with
    decodePixels := some
      [{ r := 170, g := 0, b := 85, a := 255 }, { r := 255, g := 255, b := 255, a := 255 }],
    decodeDirty := true }

/-- The scratch buffer after Decode of the sample texture with the sample
palette: pixel (0,0) transparent, pixel (1,0) the colour of code 12. -/
def sampleScratch : List ColorRGBA :=
  [{ r := 0, g := 0, b := 0, a := 0 }, { r := 170, g := 0, b := 85, a := 255 }]

/-- The backend texture after Decode of the sample texture. -/
def sampleBackend : Texture := { w := 2, h := 1, pixels := sampleScratch }

/-- What Decode returns for the sample texture and the sample palette: the
backend texture, the texture state afterwards, the colour statics afterwards. -/
def sampleDecoded : Texture × EGATexture × ColorStatics :=
  (sampleBackend,
   { sampleTexture with
     decoded := some sampleBackend, decodePixels := some sampleScratch, decodeDirty := false },
   ColorStatics.built)

/-- The textures a program can hold: the result of `egaTextureCreate`, and
what any sequence of `egaTextureResize` and returning `egaTextureDecode` calls
makes of it.  Widths and heights are `u32` values. -/
inductive Produced : EGATexture → Prop
  | create (width height : Nat) (hw : width < 2 ^ 32) (hh : height < 2 ^ 32) :
      Produced (egaTextureCreate width height)
  | resize {t : EGATexture} (width height : Nat) (hw : width < 2 ^ 32)
      (hh : height < 2 ^ 32) :
      Produced t → Produced (egaTextureResize t width height)
  | decode {t t1 : EGATexture} {st st1 : ColorStatics} {palette : EGAPalette}
      {tex : Texture} :
      Produced t → egaTextureDecode st t palette = some (tex, t1, st1) → Produced t1

/-- In the words of the specification: a byte buffer holds `n` bytes; a NULL
pointer holds none. -/
def holdsBytes (buf : Option (List Nat)) (n : Nat) : Prop :=
  match buf with
  | none => n = 0
  | some bytes => bytes.length = n

/-- What holds of every texture a program can hold: geometry fields computed
from `w` and `h`, buffers sized by them, both dirty flags false. -/
structure Consistent (t : EGATexture) : Prop where
  widthSmall : t.w < 2 ^ 32
  heightSmall : t.h < 2 ^ 32
  region : t.fullRegion = { left := 0, top := 0, width := t.w, height := t.h }
  alphaWidth : t.alphaSLWidth = (t.w + 7) / 8
  count : t.pixelCount = u32 (t.w * t.h)
  buffers :
    (t.alphaChannel = none ∧ t.pixelData = none ∧ t.w = 0 ∧ t.h = 0 ∧ t.pixelSLWidth = 0)
      ∨ (∃ alpha pd, t.alphaChannel = some alpha ∧ alpha.length = t.h * t.alphaSLWidth
          ∧ (∀ v ∈ alpha, v = 0)
          ∧ t.pixelData = some pd ∧ pd.length = t.h * t.pixelSLWidth
          ∧ (∀ v ∈ pd, v = 0)
          ∧ t.pixelSLWidth = t.w / 2 + (if t.w % 2 = 0 then 1 else 0))
  scratch : t.decodePixels = none
    ∨ t.decodePixels = some (List.replicate t.pixelCount { r := 0, g := 0, b := 0, a := 0 })
  backend : t.decoded = none ∨ t.decoded = some (textureCreateCustom t.w t.h)
  noOffset : t.pixelDataOffset = none
  clean : t.decodeDirty = false
  offsetClean : t.offsetDirty = false

/-- The struct `FileEntry` of `CheckedMemory.c`, without its queue node: `file`
is the interned string (a `StringView`, compared as a pointer), `line` and
`allocCount` are `u32`. -/
structure FileEntry where
  file : Nat
  line : Nat
  allocCount : Nat
deriving DecidableEq, Repr

/-- The function `_fileEntryCompare`: the first comparison has `e1->file` on
both sides. -/
def _fileEntryCompare (e1 e2 : FileEntry) : Int :=
  if e1.file = e1.file ∧ e1.line = e2.line then 1 else 0

/-- The function `_fileEntryHash`, in `u32` arithmetic.  `hashPtr` belongs to a
header that is not part of the sources at hand and is a parameter. -/
def _fileEntryHash (hashPtr : Nat → Nat) (file : FileEntry) : Nat :=
  let out := 5031
  let out := u32 (out + u32 (u32 (out <<< 5) + file.line))
  let out := u32 (out + u32 (u32 (out <<< 5) + hashPtr file.file))
  u32 (u32 (out <<< 5) + out)

/-- A 65536 x 65536 texture with the geometry `egaTextureResize` gives it (the
`u32` product `w * h` wraps to `pixelCount = 0`), pixel (0,0) opaque, marked
for recomputation.  Both byte buffers are written as their first byte followed
by the zero bytes that fill them up to `h * alphaSLWidth` and
`h * pixelSLWidth` bytes. -/
def wideTexture : EGATexture :=
  { w := 65536, h := 65536,
    fullRegion := { left := 0, top := 0, width := 65536, height := 65536 },
    alphaSLWidth := 8192, pixelSLWidth := 32769, pixelCount := 0,
    alphaChannel := some (1 :: List.replicate (65536 * 8192 - 1) 0),
    pixelData := some (0 :: List.replicate (65536 * 32769 - 1) 0),
    pixelDataOffset := none, decoded := none, decodePixels := none,
    offsetDirty := false, decodeDirty := true }

/-- A 5 x 1 texture as `egaTextureCreate(5,1)` sizes it, its last pixel (4,0)
opaque, marked for recomputation. -/
def oddTexture : EGATexture :=
  { egaTextureCreate 5 1 with alphaChannel := some [16], decodeDirty := true }

/-! ## Auxiliary facts -/

theorem builtTable_eq_spec : builtTable = (List.range 64).map specColor := by
  decide

theorem builtTable_get (c : Nat) (hc : c < 64) : builtTable[c]? = some (specColor c) := by
  rw [builtTable_eq_spec, List.getElem?_map, List.getElem?_range hc]
  rfl

theorem egaGetColor_initial (c : Nat) (hc : c < 64) :
    egaGetColor ColorStatics.initial c = some (specColor c, ColorStatics.built) := by
  have h := builtTable_get c hc
  unfold egaGetColor
  show (match builtTable[c]? with
        | some rgb => some (rgb, ColorStatics.built)
        | none => none) = _
  rw [h]

theorem egaGetColor_built (c : Nat) (hc : c < 64) :
    egaGetColor ColorStatics.built c = some (specColor c, ColorStatics.built) := by
  have h := builtTable_get c hc
  simp [egaGetColor, ColorStatics.built, h]

theorem egaGetColor_state (st st1 : ColorStatics) (c : Nat) (rgb : ColorRGB)
    (h : egaGetColor st c = some (rgb, st1)) :
    st1 = (if !st.loaded then { lookup := _buildColorTable st.lookup, loaded := true } else st) := by
  unfold egaGetColor at h
  dsimp only at h
  split at h
  · simp only [Option.some.injEq, Prod.mk.injEq] at h
    exact h.2.symm
  · exact absurd h (by simp)

theorem reachable_cases (st : ColorStatics) (h : ColorStatics.Reachable st) :
    st = ColorStatics.initial ∨ st = ColorStatics.built := by
  induction h with
  | start => exact Or.inl rfl
  | call _ hcall ih =>
    have hs := egaGetColor_state _ _ _ _ hcall
    rcases ih with ih | ih
    · right
      rw [hs, ih]
      rfl
    · right
      rw [hs, ih]
      rfl

theorem egaGetColor_reachable (st : ColorStatics) (h : ColorStatics.Reachable st)
    (c : Nat) (hc : c < 64) :
    egaGetColor st c = some (specColor c, ColorStatics.built) := by
  rcases reachable_cases st h with h | h
  · rw [h]; exact egaGetColor_initial c hc
  · rw [h]; exact egaGetColor_built c hc

theorem reachable_built : ColorStatics.Reachable ColorStatics.built :=
  ColorStatics.Reachable.call ColorStatics.Reachable.start (egaGetColor_initial 0 (by decide))

theorem u32_of_lt {n : Nat} (h : n < 2 ^ 32) : u32 n = n := Nat.mod_eq_of_lt h

theorem shiftRight_one_eq (w : Nat) : w >>> 1 = w / 2 := by
  rw [Nat.shiftRight_eq_div_pow]

theorem shiftRight_three_eq (w : Nat) : w >>> 3 = w / 8 := by
  rw [Nat.shiftRight_eq_div_pow]

theorem shiftRight_four_eq (w : Nat) : w >>> 4 = w / 16 := by
  rw [Nat.shiftRight_eq_div_pow]

theorem and_one_eq (w : Nat) : w &&& 1 = w % 2 := Nat.and_pow_two_sub_one_eq_mod w 1

theorem and_seven_eq (w : Nat) : w &&& 7 = w % 8 := Nat.and_pow_two_sub_one_eq_mod w 3

theorem and_fifteen_eq (w : Nat) : w &&& 15 = w % 16 := Nat.and_pow_two_sub_one_eq_mod w 4

theorem egaTextureResize_same (self : EGATexture) :
    egaTextureResize self self.w self.h = self := by
  simp [egaTextureResize]

theorem freeTextureBuffers_eq (self : EGATexture) :
    _freeTextureBuffers self =
      { self with alphaChannel := none, decoded := none, decodePixels := none,
                  pixelData := none, pixelDataOffset := none } := by
  obtain ⟨w, h, fr, asw, psw, pc, ac, pd, pdo, dec, dp, od, dd⟩ := self
  cases ac <;> cases pd <;> cases pdo <;> cases dec <;> cases dp <;> rfl

theorem egaTextureResize_changed (self : EGATexture) (width height : Nat)
    (hne : ¬ (width = self.w ∧ height = self.h)) :
    egaTextureResize self width height =
      { w := width, h := height,
        fullRegion := { left := 0, top := 0, width := width, height := height },
        alphaSLWidth := u32 ((width >>> 3) + (if width &&& 7 ≠ 0 then 1 else 0)),
        pixelSLWidth := u32 ((width >>> 1) + (if width &&& 1 ≠ 0 then 0 else 1)),
        pixelCount := u32 (width * height),
        alphaChannel := some (List.replicate
          (height * u32 ((width >>> 3) + (if width &&& 7 ≠ 0 then 1 else 0))) 0),
        pixelData := some (List.replicate
          (height * u32 ((width >>> 1) + (if width &&& 1 ≠ 0 then 0 else 1))) 0),
        pixelDataOffset := none, decoded := none, decodePixels := none,
        offsetDirty := self.offsetDirty, decodeDirty := self.decodeDirty } := by
  unfold egaTextureResize
  rw [if_neg hne, freeTextureBuffers_eq]
  rfl

theorem alphaWidth_eq (w : Nat) (hw : w < 2 ^ 32) :
    u32 ((w >>> 3) + (if w &&& 7 ≠ 0 then 1 else 0)) = (w + 7) / 8 := by
  rw [shiftRight_three_eq, and_seven_eq]
  have h1 : w / 8 + (if w % 8 ≠ 0 then 1 else 0) = (w + 7) / 8 := by
    split <;> omega
  rw [h1]
  apply u32_of_lt
  omega

theorem pixelWidth_eq (w : Nat) (hw : w < 2 ^ 32) :
    u32 ((w >>> 1) + (if w &&& 1 ≠ 0 then 0 else 1)) = w / 2 + (if w % 2 = 0 then 1 else 0) := by
  rw [shiftRight_one_eq, and_one_eq]
  have h1 : w / 2 + (if w % 2 ≠ 0 then 0 else 1) = w / 2 + (if w % 2 = 0 then 1 else 0) := by
    by_cases h : w % 2 = 0 <;> simp [h]
  rw [h1]
  apply u32_of_lt
  split <;> omega

theorem foldlM_range_invariant {σ : Type} (f : σ → Nat → Option σ) (P : Nat → σ → Prop)
    (n : Nat) (s0 : σ) (h0 : P 0 s0)
    (hstep : ∀ i s, i < n → P i s → ∃ s1, f s i = some s1 ∧ P (i + 1) s1) :
    ∃ s, (List.range n).foldlM f s0 = some s ∧ P n s := by
  induction n with
  | zero => exact ⟨s0, rfl, h0⟩
  | succ k ih =>
    obtain ⟨s, hs, hP⟩ := ih (fun i s hi hp => hstep i s (Nat.lt_succ_of_lt hi) hp)
    obtain ⟨s1, hs1, hP1⟩ := hstep k s (Nat.lt_succ_self k) hP
    refine ⟨s1, ?_, hP1⟩
    rw [List.range_succ, List.foldlM_append, hs]
    simp [hs1]

theorem alphaTest_iff (a x : Nat) :
    a &&& (1 <<< (x &&& 7)) ≠ 0 ↔ a.testBit (x % 8) = true := by
  rw [and_seven_eq, Nat.one_shiftLeft, Nat.and_two_pow]
  cases h : a.testBit (x % 8)
  · simp
  · simp

theorem u32_add_u32 (a b : Nat) : u32 (u32 a + b) = u32 (a + b) := by
  unfold u32
  exact Nat.mod_add_mod a (2 ^ 32) b

theorem row_index_lt {w h x y : Nat} (hx : x < w) (hy : y < h) : y * w + x < w * h := by
  have h1 : (y + 1) * w ≤ h * w := Nat.mul_le_mul_right w hy
  rw [Nat.add_mul, Nat.one_mul, Nat.mul_comm h w] at h1
  omega

theorem decodePixel_step (self : EGATexture) (palette : EGAPalette) (alpha pd : List Nat)
    (hr : DecodeReady self palette alpha pd) (base : List ColorRGBA)
    (hbase : base.length = self.w * self.h) (x y : Nat) (hx : x < self.w) (hy : y < self.h)
    (acc : ColorStatics × List ColorRGBA)
    (hacc : DecodedUpTo self palette alpha pd base (y * self.w + x) acc) :
    ∃ acc1, decodePixel self palette (u32 (y * self.alphaSLWidth)) (u32 (y * self.pixelSLWidth))
        (u32 (y * self.w)) acc x = some acc1
      ∧ DecodedUpTo self palette alpha pd base (y * self.w + x + 1) acc1 := by
  obtain ⟨hst, hlen, hbuf⟩ := hacc
  have hk : y * self.w + x < self.w * self.h := row_index_lt hx hy
  have hmod : (y * self.w + x) % self.w = x := by
    rw [Nat.mul_comm, Nat.mul_add_mod, Nat.mod_eq_of_lt hx]
  have hdiv : (y * self.w + x) / self.w = y := by
    rw [Nat.mul_comm, Nat.mul_add_div (by omega), Nat.div_eq_of_lt hx, Nat.add_zero]
  -- the alpha read
  have hx8 : x / 8 < self.alphaSLWidth := by
    have := hr.alphaFit
    omega
  have haidx : y * self.alphaSLWidth + x / 8 < alpha.length := by
    rw [hr.alphaLen, Nat.mul_comm self.h]
    exact row_index_lt hx8 hy
  have hau : u32 (u32 (y * self.alphaSLWidth) + (x >>> 3)) = y * self.alphaSLWidth + x / 8 := by
    rw [u32_add_u32, shiftRight_three_eq]
    exact u32_of_lt (lt_of_lt_of_le haidx hr.alphaSmall)
  have hdu : u32 (u32 (y * self.w) + x) = y * self.w + x := by
    rw [u32_add_u32]
    exact u32_of_lt (lt_trans hk hr.small)
  have haget : alpha[y * self.alphaSLWidth + x / 8]? = some (alpha.getD (y * self.alphaSLWidth + x / 8) 0) := by
    rw [List.getD_eq_getElem?_getD, List.getElem?_eq_getElem haidx]
    rfl
  have htest : (alpha.getD (y * self.alphaSLWidth + x / 8) 0 &&& (1 <<< (x &&& 7)) ≠ 0)
      ↔ alphaBitSet self alpha x y = true := alphaTest_iff _ _
  by_cases hop : alphaBitSet self alpha x y = true
  · -- the pixel read
    have hpidx : y * self.pixelSLWidth + x / 2 < pd.length := hr.solidRead x y hx hy hop
    have hpu : u32 (u32 (y * self.pixelSLWidth) + (x >>> 1)) = y * self.pixelSLWidth + x / 2 := by
      rw [u32_add_u32, shiftRight_one_eq]
      exact u32_of_lt (lt_of_lt_of_le hpidx hr.pixelSmall)
    have hpget : pd[y * self.pixelSLWidth + x / 2]?
        = some (pd.getD (y * self.pixelSLWidth + x / 2) 0) := by
      rw [List.getD_eq_getElem?_getD, List.getElem?_eq_getElem hpidx]
      rfl
    have hbyte : pd.getD (y * self.pixelSLWidth + x / 2) 0 < 256 := by
      rw [List.getD_eq_getElem?_getD, List.getElem?_eq_getElem hpidx]
      exact hr.pixelBytes _ (List.getElem_mem _)
    have hpIdx : (if x &&& 1 ≠ 0 then pd.getD (y * self.pixelSLWidth + x / 2) 0 >>> 4
        else pd.getD (y * self.pixelSLWidth + x / 2) 0 &&& 15) = paletteIndexAt self pd x y := by
      rw [and_one_eq, shiftRight_four_eq, and_fifteen_eq]
      unfold paletteIndexAt
      by_cases hpar : x % 2 = 0 <;> simp [hpar]
    have hpIdxLt : paletteIndexAt self pd x y < palette.colors.length := by
      rw [hr.paletteLen]
      unfold paletteIndexAt
      split <;> omega
    have hcget : palette.colors[paletteIndexAt self pd x y]?
        = some (palette.colors.getD (paletteIndexAt self pd x y) 0) := by
      rw [List.getD_eq_getElem?_getD, List.getElem?_eq_getElem hpIdxLt]
      rfl
    have hcode : palette.colors.getD (paletteIndexAt self pd x y) 0 < 64 := by
      rw [List.getD_eq_getElem?_getD, List.getElem?_eq_getElem hpIdxLt]
      exact hr.paletteCodes _ (List.getElem_mem _)
    have hcol := egaGetColor_reachable acc.1 hst _ hcode
    have hin : y * self.w + x < acc.2.length := by
      rw [hlen, hbase]; exact hk
    refine ⟨(ColorStatics.built, acc.2.set (y * self.w + x) (solidQuad self palette pd x y)),
      ?_, reachable_built, ?_, ?_⟩
    · unfold decodePixel
      simp only [hr.alphaBuf, hr.pixelBuf, hau, hpu, hdu, haget, hpget, Option.bind_eq_bind,
        Option.some_bind, hpIdx, hcget, hcol]
      rw [if_pos (htest.mpr hop), if_pos hin]
      rfl
    · simp [hlen]
    · intro i
      show (acc.2.set (y * self.w + x) (solidQuad self palette pd x y))[i]? = _
      rw [List.getElem?_set]
      by_cases hi : y * self.w + x = i
      · subst hi
        rw [if_pos rfl, if_pos hin, hmod, hdiv, if_pos ⟨Nat.lt_succ_self _, hop⟩]
      · rw [if_neg hi, hbuf i]
        have hlt : i < y * self.w + x + 1 ↔ i < y * self.w + x := by omega
        simp only [hlt]
  · refine ⟨acc, ?_, hst, hlen, ?_⟩
    · unfold decodePixel
      simp only [hr.alphaBuf, hau, haget, Option.bind_eq_bind, Option.some_bind]
      rw [if_neg (fun hne => hop (htest.mp hne))]
    · intro i
      rw [hbuf i]
      by_cases hi : i = y * self.w + x
      · subst hi
        rw [hmod, hdiv]
        simp [hop]
      · have hlt : i < y * self.w + x + 1 ↔ i < y * self.w + x := by omega
        simp only [hlt]

theorem decodeRow_step (self : EGATexture) (palette : EGAPalette) (alpha pd : List Nat)
    (hr : DecodeReady self palette alpha pd) (base : List ColorRGBA)
    (hbase : base.length = self.w * self.h) (y : Nat) (hy : y < self.h) (s : DecodeLoop)
    (hs : RowsDone self palette alpha pd base y s) :
    ∃ s1, decodeRow self palette s y = some s1
      ∧ RowsDone self palette alpha pd base (y + 1) s1 := by
  obtain ⟨hasl, hpsl, hdsl, hacc⟩ := hs
  obtain ⟨acc1, hfold, hdone⟩ := foldlM_range_invariant
    (decodePixel self palette s.asl s.psl s.dsl)
    (fun n acc => DecodedUpTo self palette alpha pd base (y * self.w + n) acc)
    self.w s.acc hacc
    (by
      intro x acc hx hP
      rw [hasl, hpsl, hdsl]
      exact decodePixel_step self palette alpha pd hr base hbase x y hx hy acc hP)
  refine ⟨{ asl := u32 (s.asl + self.alphaSLWidth), psl := u32 (s.psl + self.pixelSLWidth),
            dsl := u32 (s.dsl + self.w), acc := acc1 }, ?_, ?_⟩
  · unfold decodeRow
    rw [hfold]
    rfl
  unfold RowsDone
  refine ⟨?_, ?_, ?_, ?_⟩
  · show u32 (s.asl + self.alphaSLWidth) = _
    rw [hasl, u32_add_u32, Nat.add_mul, Nat.one_mul]
  · show u32 (s.psl + self.pixelSLWidth) = _
    rw [hpsl, u32_add_u32, Nat.add_mul, Nat.one_mul]
  · show u32 (s.dsl + self.w) = _
    rw [hdsl, u32_add_u32, Nat.add_mul, Nat.one_mul]
  · show DecodedUpTo self palette alpha pd base ((y + 1) * self.w) acc1
    rw [Nat.add_mul, Nat.one_mul]
    exact hdone

theorem decodeLoop_spec (self : EGATexture) (palette : EGAPalette) (alpha pd : List Nat)
    (hr : DecodeReady self palette alpha pd) (base : List ColorRGBA)
    (hbase : base.length = self.w * self.h) (st : ColorStatics)
    (hst : ColorStatics.Reachable st) :
    ∃ fin, (List.range self.h).foldlM (decodeRow self palette)
        { asl := 0, psl := 0, dsl := 0, acc := (st, base) } = some fin
      ∧ DecodedUpTo self palette alpha pd base (self.w * self.h) fin.acc := by
  obtain ⟨fin, hfold, hdone⟩ := foldlM_range_invariant (decodeRow self palette)
    (fun y s => RowsDone self palette alpha pd base y s) self.h
    { asl := 0, psl := 0, dsl := 0, acc := (st, base) }
    (by
      unfold RowsDone DecodedUpTo
      refine ⟨?_, ?_, ?_, hst, rfl, ?_⟩
      · simp [u32]
      · simp [u32]
      · simp [u32]
      · intro i
        simp)
    (fun y s hy hP => decodeRow_step self palette alpha pd hr base hbase y hy s hP)
  refine ⟨fin, hfold, ?_⟩
  have h4 := hdone.2.2.2
  rw [Nat.mul_comm] at h4
  exact h4

theorem egaTextureDecode_afterLazyAlloc (st : ColorStatics) (self : EGATexture)
    (palette : EGAPalette) :
    egaTextureDecode st self palette = egaTextureDecode st (afterLazyAlloc self) palette := by
  obtain ⟨w, h, fr, asw, psw, pc, ac, pd, pdo, dec, dp, od, dd⟩ := self
  cases dec <;> cases dp <;> rfl

theorem decodeReady_afterLazyAlloc (self : EGATexture) (palette : EGAPalette)
    (alpha pd : List Nat) (hr : DecodeReady self palette alpha pd) :
    DecodeReady (afterLazyAlloc self) palette alpha pd ∧
      ∃ buf, (afterLazyAlloc self).decodePixels = some buf ∧ buf.length = self.w * self.h := by
  have hlen : (self.decodePixels.getD
      (List.replicate self.pixelCount { r := 0, g := 0, b := 0, a := 0 })).length
        = self.pixelCount := by
    cases hdp : self.decodePixels with
    | none => simp
    | some buf => simpa using hr.scratch buf hdp
  refine ⟨?_, _, rfl, ?_⟩
  · exact
      { alphaBuf := hr.alphaBuf, pixelBuf := hr.pixelBuf, alphaLen := hr.alphaLen,
        alphaFit := hr.alphaFit, alphaSmall := hr.alphaSmall, pixelSmall := hr.pixelSmall,
        pixelBytes := hr.pixelBytes, solidRead := hr.solidRead, count := hr.count,
        small := hr.small,
        scratch := by
          intro buf hbuf
          have : buf = self.decodePixels.getD
              (List.replicate self.pixelCount { r := 0, g := 0, b := 0, a := 0 }) :=
            (Option.some.inj hbuf).symm
          rw [this]
          exact hlen
        paletteLen := hr.paletteLen, paletteCodes := hr.paletteCodes }
  · rw [hlen, hr.count]

theorem egaTextureDecode_dirty (st : ColorStatics) (self : EGATexture) (palette : EGAPalette)
    (alpha pd : List Nat) (hst : ColorStatics.Reachable st) (hd : self.decodeDirty = true)
    (hr : DecodeReady self palette alpha pd) :
    ∃ out st1,
      egaTextureDecode st self palette
        = some (textureSetPixels (self.decoded.getD (textureCreateCustom self.w self.h)) out,
            { self with
              decoded := some (textureSetPixels
                (self.decoded.getD (textureCreateCustom self.w self.h)) out),
              decodePixels := some out, decodeDirty := false },
            st1)
      ∧ DecodedUpTo self palette alpha pd (clearedScratch self) (self.w * self.h) (st1, out) := by
  obtain ⟨hr1, buf, hbuf, hbuflen⟩ := decodeReady_afterLazyAlloc self palette alpha pd hr
  have hbase : (clearedScratch self).length = (afterLazyAlloc self).w * (afterLazyAlloc self).h := by
    have hb : buf = self.decodePixels.getD
        (List.replicate self.pixelCount { r := 0, g := 0, b := 0, a := 0 }) :=
      (Option.some.inj hbuf).symm
    unfold clearedScratch
    rw [List.length_mapIdx, ← hb, hbuflen]
    rfl
  obtain ⟨fin, hfold, hdone⟩ :=
    decodeLoop_spec (afterLazyAlloc self) palette alpha pd hr1 (clearedScratch self) hbase st hst
  refine ⟨fin.acc.2, fin.acc.1, ?_, hdone⟩
  rw [egaTextureDecode_afterLazyAlloc]
  have hms : memsetZero (self.decodePixels.getD
      (List.replicate self.pixelCount { r := 0, g := 0, b := 0, a := 0 })) self.pixelCount
        = some (clearedScratch self) := by
    have hb : buf = self.decodePixels.getD
        (List.replicate self.pixelCount { r := 0, g := 0, b := 0, a := 0 }) :=
      (Option.some.inj hbuf).symm
    unfold memsetZero
    rw [if_pos]
    · rfl
    · rw [← hb, hbuflen, hr.count]
      omega
  unfold egaTextureDecode
  simp only [afterLazyAlloc, Option.isNone_some, Bool.false_eq_true, if_false, hd, if_true,
    Option.bind_eq_bind, Option.some_bind, hms]
  have hfold1 : (List.range self.h).foldlM (decodeRow (afterLazyAlloc self) palette)
      { asl := 0, psl := 0, dsl := 0, acc := (st, clearedScratch self) } = some fin := hfold
  simp only [afterLazyAlloc, hd] at hfold1
  rw [hfold1]
  rfl

theorem sampleTexture_ready : DecodeReady sampleTexture samplePalette [2] [48, 0] where
  alphaBuf := rfl
  pixelBuf := rfl
  alphaLen := by decide
  alphaFit := by decide
  alphaSmall := by decide
  pixelSmall := by decide
  pixelBytes := by decide
  solidRead := by
    intro x y hx hy _
    have hx2 : x < 2 := hx
    have hy1 : y < 1 := hy
    interval_cases x <;> interval_cases y <;> decide
  count := by decide
  small := by decide
  scratch := by
    intro buf hbuf
    have hnone : (none : Option (List ColorRGBA)) = some buf := hbuf
    exact Option.noConfusion hnone
  paletteLen := by decide
  paletteCodes := by decide

theorem specColor_injective (c d : Nat) (hc : c < 64) (hd : d < 64)
    (h : specColor c = specColor d) : c = d := by
  have key : ∀ a < 64, ∀ b < 64, specColor a = specColor b → a = b := by decide
  exact key c hc d hd h

theorem specColor_channels (c : Nat) (hc : c < 64) :
    ((specColor c).r = 0 ∨ (specColor c).r = 85 ∨ (specColor c).r = 170 ∨ (specColor c).r = 255)
      ∧ ((specColor c).g = 0 ∨ (specColor c).g = 85 ∨ (specColor c).g = 170
          ∨ (specColor c).g = 255)
      ∧ ((specColor c).b = 0 ∨ (specColor c).b = 85 ∨ (specColor c).b = 170
          ∨ (specColor c).b = 255) := by
  have key : ∀ a < 64,
      ((specColor a).r = 0 ∨ (specColor a).r = 85 ∨ (specColor a).r = 170 ∨ (specColor a).r = 255)
        ∧ ((specColor a).g = 0 ∨ (specColor a).g = 85 ∨ (specColor a).g = 170
            ∨ (specColor a).g = 255)
        ∧ ((specColor a).b = 0 ∨ (specColor a).b = 85 ∨ (specColor a).b = 170
            ∨ (specColor a).b = 255) := by decide
  exact key c hc

theorem consistent_zeroed : Consistent EGATexture.zeroed where
  widthSmall := by decide
  heightSmall := by decide
  region := rfl
  alphaWidth := rfl
  count := rfl
  buffers := Or.inl ⟨rfl, rfl, rfl, rfl, rfl⟩
  scratch := Or.inl rfl
  backend := Or.inl rfl
  noOffset := rfl
  clean := rfl
  offsetClean := rfl

theorem consistent_resize (t : EGATexture) (width height : Nat) (hw : width < 2 ^ 32)
    (hh : height < 2 ^ 32) (ht : Consistent t) :
    Consistent (egaTextureResize t width height) := by
  by_cases hsame : width = t.w ∧ height = t.h
  · obtain ⟨rfl, rfl⟩ := hsame
    rw [egaTextureResize_same]
    exact ht
  · rw [egaTextureResize_changed t width height hsame]
    exact
      { widthSmall := hw
        heightSmall := hh
        region := rfl
        alphaWidth := alphaWidth_eq width hw
        count := rfl
        buffers := Or.inr ⟨_, _, rfl, by simp, fun v hv => (List.mem_replicate.mp hv).2,
          rfl, by simp, fun v hv => (List.mem_replicate.mp hv).2, pixelWidth_eq width hw⟩
        scratch := Or.inl rfl
        backend := Or.inl rfl
        noOffset := rfl
        clean := ht.clean
        offsetClean := ht.offsetClean }

theorem egaTextureDecode_clean (st : ColorStatics) (t : EGATexture) (palette : EGAPalette)
    (hclean : t.decodeDirty = false) :
    egaTextureDecode st t palette
      = some ((afterLazyAlloc t).decoded.getD (textureCreateCustom t.w t.h),
          afterLazyAlloc t, st) := by
  rw [egaTextureDecode_afterLazyAlloc]
  unfold egaTextureDecode
  simp [afterLazyAlloc, hclean]

theorem consistent_afterLazyAlloc (t : EGATexture) (ht : Consistent t) :
    Consistent (afterLazyAlloc t) where
  widthSmall := ht.widthSmall
  heightSmall := ht.heightSmall
  region := ht.region
  alphaWidth := ht.alphaWidth
  count := ht.count
  buffers := ht.buffers
  scratch := by
    right
    show some (t.decodePixels.getD _) = _
    rcases ht.scratch with h | h
    · rw [h]; rfl
    · rw [h]; rfl
  backend := by
    right
    show some (t.decoded.getD _) = _
    rcases ht.backend with h | h
    · rw [h]; rfl
    · rw [h]; rfl
  noOffset := ht.noOffset
  clean := ht.clean
  offsetClean := ht.offsetClean

theorem produced_consistent (t : EGATexture) (h : Produced t) : Consistent t := by
  induction h with
  | create width height hw hh =>
    exact consistent_resize _ width height hw hh consistent_zeroed
  | resize width height hw hh _ ih =>
    exact consistent_resize _ width height hw hh ih
  | decode _ hdec ih =>
    rw [egaTextureDecode_clean _ _ _ ih.clean] at hdec
    simp only [Option.some.injEq, Prod.mk.injEq] at hdec
    rw [← hdec.2.1]
    exact consistent_afterLazyAlloc _ ih

theorem foldlM_range_first_none {σ : Type} (f : σ → Nat → Option σ) (s : σ) (n : Nat)
    (hn : 0 < n) (h : f s 0 = none) : (List.range n).foldlM f s = none := by
  obtain ⟨m, rfl⟩ : ∃ m, n = m + 1 := ⟨n - 1, by omega⟩
  rw [List.range_succ_eq_map, List.foldlM_cons, h]
  rfl

theorem decodePixel_empty_scratch (t : EGATexture) (palette : EGAPalette) (st : ColorStatics)
    (restAlpha restPixels : List Nat)
    (ha : t.alphaChannel = some (1 :: restAlpha)) (hp : t.pixelData = some (0 :: restPixels)) :
    decodePixel t palette 0 0 0 (st, []) 0 = none := by
  unfold decodePixel
  simp [ha, hp, u32]

theorem egaTextureDecode_loop_none (st : ColorStatics) (t : EGATexture)
    (palette : EGAPalette) (tex : Texture) (buf base : List ColorRGBA)
    (hd : t.decodeDirty = true) (hdec : t.decoded = some tex)
    (hbuf : t.decodePixels = some buf) (hms : memsetZero buf t.pixelCount = some base)
    (hloop : (List.range t.h).foldlM (decodeRow t palette)
      { asl := 0, psl := 0, dsl := 0, acc := (st, base) } = none) :
    egaTextureDecode st t palette = none := by
  unfold egaTextureDecode
  simp [hd, hdec, hbuf, hms, hloop]

theorem wideTexture_decode_none (st : ColorStatics) (palette : EGAPalette) :
    egaTextureDecode st wideTexture palette = none := by
  have hpix : decodePixel (afterLazyAlloc wideTexture) palette 0 0 0 (st, []) 0 = none :=
    decodePixel_empty_scratch _ palette st _ _ rfl rfl
  have hfold := foldlM_range_first_none
    (decodePixel (afterLazyAlloc wideTexture) palette 0 0 0) (st, [])
    (afterLazyAlloc wideTexture).w (show 0 < 65536 by decide) hpix
  have hrow : decodeRow (afterLazyAlloc wideTexture) palette
      { asl := 0, psl := 0, dsl := 0, acc := (st, []) } 0 = none := by
    unfold decodeRow
    dsimp only
    rw [hfold]
    rfl
  have hloop := foldlM_range_first_none (decodeRow (afterLazyAlloc wideTexture) palette)
    { asl := 0, psl := 0, dsl := 0, acc := (st, []) }
    (afterLazyAlloc wideTexture).h (show 0 < 65536 by decide) hrow
  rw [egaTextureDecode_afterLazyAlloc]
  exact egaTextureDecode_loop_none st (afterLazyAlloc wideTexture) palette
    (textureCreateCustom 65536 65536) [] [] rfl rfl rfl rfl hloop

/-! ## Claims -/

/-- C1: for every code `c` in 0..63, in every state of the statics that the
program can be in, `egaGetColor c` returns the colour
`(T[2*bit2+bit5], T[2*bit1+bit4], T[2*bit0+bit3])` with `T = {0, 85, 170, 255}`;
code 0 gives (0,0,0), code 0b100000 gives (85,0,0), code 63 gives (255,255,255). -/
theorem egaGetColor_matches_bit_mapping (st : ColorStatics) (c : Nat)
    (hst : ColorStatics.Reachable st) (hc : c < 64) :
    (egaGetColor st c).map Prod.fst
        = some { r := specChannel (specBit c 2) (specBit c 5),
                 g := specChannel (specBit c 1) (specBit c 4),
                 b := specChannel (specBit c 0) (specBit c 3) }
      ∧ (egaGetColor st 0).map Prod.fst = some { r := 0, g := 0, b := 0 }
      ∧ (egaGetColor st 0b100000).map Prod.fst = some { r := 85, g := 0, b := 0 }
      ∧ (egaGetColor st 63).map Prod.fst = some { r := 255, g := 255, b := 255 } := by
  refine ⟨?_, ?_, ?_, ?_⟩
  · rw [egaGetColor_reachable st hst c hc]; rfl
  · rw [egaGetColor_reachable st hst 0 (by decide)]; rfl
  · rw [egaGetColor_reachable st hst 0b100000 (by decide)]; rfl
  · rw [egaGetColor_reachable st hst 63 (by decide)]; rfl

/-- Witness for C1 at the initial statics and the code 0b010010. -/
theorem egaGetColor_matches_bit_mapping_witness :
    (egaGetColor ColorStatics.initial 18).map Prod.fst = some { r := 0, g := 255, b := 0 } :=
  (egaGetColor_matches_bit_mapping ColorStatics.initial 18
    ColorStatics.Reachable.start (by decide)).1

/-- C2 fails as stated, in two ways.  In the 65536 x 65536 texture, sized as
`egaTextureResize` sizes it, `pixelCount` has wrapped to 0, the scratch buffer
is empty, and Decode writes the opaque pixel (0,0) past its end.  In the 5 x 1
texture sized by `egaTextureCreate(5,1)` the index byte of the opaque pixel
(4,0) lies past the end of `pixelData`.  In both Decode has no defined result,
so no `decodePixels` afterwards. -/
theorem egaTextureDecode_solid_pixel_undefined :
    (wideTexture.w = 65536 ∧ wideTexture.h = 65536
        ∧ wideTexture.alphaSLWidth
            = (egaTextureResize EGATexture.zeroed 65536 65536).alphaSLWidth
        ∧ wideTexture.pixelSLWidth
            = (egaTextureResize EGATexture.zeroed 65536 65536).pixelSLWidth
        ∧ wideTexture.pixelCount = (egaTextureResize EGATexture.zeroed 65536 65536).pixelCount
        ∧ wideTexture.decodeDirty = true
        ∧ (∃ alpha a, wideTexture.alphaChannel = some alpha
            ∧ alpha.length = wideTexture.h * wideTexture.alphaSLWidth
            ∧ alpha[0 * wideTexture.alphaSLWidth + 0 / 8]? = some a ∧ a.testBit (0 % 8) = true)
        ∧ (∃ pd, wideTexture.pixelData = some pd
            ∧ pd.length = wideTexture.h * wideTexture.pixelSLWidth)
        ∧ egaTextureDecode ColorStatics.initial wideTexture samplePalette = none)
      ∧ (oddTexture.w = 5 ∧ oddTexture.h = 1
        ∧ oddTexture.pixelSLWidth = (egaTextureCreate 5 1).pixelSLWidth
        ∧ oddTexture.pixelData = (egaTextureCreate 5 1).pixelData
        ∧ oddTexture.decodeDirty = true
        ∧ (∃ alpha a, oddTexture.alphaChannel = some alpha
            ∧ alpha[0 * oddTexture.alphaSLWidth + 4 / 8]? = some a ∧ a.testBit (4 % 8) = true)
        ∧ egaTextureDecode ColorStatics.initial oddTexture samplePalette = none) := by
  have hshape := egaTextureResize_changed EGATexture.zeroed 65536 65536 (by decide)
  have hzero : 0 * wideTexture.alphaSLWidth + 0 / 8 = 0 := by decide
  refine ⟨⟨rfl, rfl, ?_, ?_, ?_, rfl,
    ⟨1 :: List.replicate (65536 * 8192 - 1) 0, 1, rfl, ?_, ?_, by decide⟩,
    ⟨0 :: List.replicate (65536 * 32769 - 1) 0, rfl, ?_⟩,
    wideTexture_decode_none _ _⟩, ?_⟩
  · rw [hshape]
    decide
  · rw [hshape]
    decide
  · rw [hshape]
    decide
  · rw [List.length_cons, List.length_replicate]
    decide
  · rw [hzero]
    exact List.getElem?_cons_zero
  · rw [List.length_cons, List.length_replicate]
    decide
  · exact ⟨by decide, by decide, by decide, by decide, by decide,
      ⟨[16], 16, by decide, by decide, by decide⟩, by decide⟩

/-- C2 (amended): when Decode recomputes (`decodeDirty` is true) on a texture
whose buffers match its geometry, with `w * h < 2^32` and with the index byte
`y*pixelSLWidth + (x>>1)` of every opaque pixel inside `pixelData`, it returns,
and for every pixel `(x,y)` with `x < w`, `y < h` whose alpha bit is set (bit
`x & 7` of `alphaChannel[y*alphaSLWidth + (x>>3)]`), `decodePixels[y*w + x]`
afterwards is `(r,g,b,255)` with `(r,g,b) = egaGetColor(palette[idx])`, `idx`
being the low nibble of `pixelData[y*pixelSLWidth + (x>>1)]` for even `x` and
its high nibble for odd `x`. -/
theorem egaTextureDecode_solid_pixel (st : ColorStatics) (self : EGATexture)
    (palette : EGAPalette) (alpha pd : List Nat) (hst : ColorStatics.Reachable st)
    (hdirty : self.decodeDirty = true) (hready : DecodeReady self palette alpha pd) :
    ∃ tex self1 st1 out,
      egaTextureDecode st self palette = some (tex, self1, st1)
      ∧ self1.decodePixels = some out
      ∧ ∀ x y, x < self.w → y < self.h →
          (∃ a, alpha[y * self.alphaSLWidth + x / 8]? = some a ∧ a.testBit (x % 8) = true) →
          ∃ twoPix code rgb,
            pd[y * self.pixelSLWidth + x / 2]? = some twoPix
            ∧ palette.colors[if x % 2 = 0 then twoPix % 16 else twoPix / 16]? = some code
            ∧ (egaGetColor st code).map Prod.fst = some rgb
            ∧ out[y * self.w + x]? = some { r := rgb.r, g := rgb.g, b := rgb.b, a := 255 } := by
  obtain ⟨out, st1, hdec, -, -, hout⟩ :=
    egaTextureDecode_dirty st self palette alpha pd hst hdirty hready
  refine ⟨_, _, st1, out, hdec, rfl, ?_⟩
  intro x y hx hy ⟨a, ha, hbit⟩
  have hk : y * self.w + x < self.w * self.h := row_index_lt hx hy
  have hmod : (y * self.w + x) % self.w = x := by
    rw [Nat.mul_comm, Nat.mul_add_mod, Nat.mod_eq_of_lt hx]
  have hdiv : (y * self.w + x) / self.w = y := by
    rw [Nat.mul_comm, Nat.mul_add_div (by omega), Nat.div_eq_of_lt hx, Nat.add_zero]
  have hop : alphaBitSet self alpha x y = true := by
    unfold alphaBitSet
    rw [List.getD_eq_getElem?_getD, ha]
    exact hbit
  have hpidx : y * self.pixelSLWidth + x / 2 < pd.length := hready.solidRead x y hx hy hop
  have hpget : pd[y * self.pixelSLWidth + x / 2]?
      = some (pd.getD (y * self.pixelSLWidth + x / 2) 0) := by
    rw [List.getD_eq_getElem?_getD, List.getElem?_eq_getElem hpidx]
    rfl
  have hbyte : pd.getD (y * self.pixelSLWidth + x / 2) 0 < 256 := by
    rw [List.getD_eq_getElem?_getD, List.getElem?_eq_getElem hpidx]
    exact hready.pixelBytes _ (List.getElem_mem _)
  have hpIdxLt : paletteIndexAt self pd x y < palette.colors.length := by
    rw [hready.paletteLen]
    unfold paletteIndexAt
    split <;> omega
  have hcget : palette.colors[paletteIndexAt self pd x y]?
      = some (palette.colors.getD (paletteIndexAt self pd x y) 0) := by
    rw [List.getD_eq_getElem?_getD, List.getElem?_eq_getElem hpIdxLt]
    rfl
  have hcode : palette.colors.getD (paletteIndexAt self pd x y) 0 < 64 := by
    rw [List.getD_eq_getElem?_getD, List.getElem?_eq_getElem hpIdxLt]
    exact hready.paletteCodes _ (List.getElem_mem _)
  refine ⟨pd.getD (y * self.pixelSLWidth + x / 2) 0,
    palette.colors.getD (paletteIndexAt self pd x y) 0,
    specColor (palette.colors.getD (paletteIndexAt self pd x y) 0), hpget, ?_, ?_, ?_⟩
  · exact hcget
  · rw [egaGetColor_reachable st hst _ hcode]
    rfl
  · have h := hout (y * self.w + x)
    rw [hmod, hdiv, if_pos ⟨hk, hop⟩] at h
    exact h

/-- Witness for the amended C2: in the 2 x 1 sample texture pixel (1,0) is opaque with
palette index 3, the sample palette maps index 3 to code 12, and Decode leaves
`(170, 0, 85, 255)`, the colour of code 12, at `decodePixels[1]`. -/
theorem egaTextureDecode_solid_pixel_witness :
    ∃ tex self1 st1 out,
      egaTextureDecode ColorStatics.initial sampleTexture samplePalette = some (tex, self1, st1)
      ∧ self1.decodePixels = some out
      ∧ out[1]? = some { r := 170, g := 0, b := 85, a := 255 } := by
  obtain ⟨tex, self1, st1, out, hdec, hout, hpix⟩ :=
    egaTextureDecode_solid_pixel ColorStatics.initial sampleTexture samplePalette [2] [48, 0]
      ColorStatics.Reachable.start rfl sampleTexture_ready
  obtain ⟨twoPix, code, rgb, h1, h2, h3, h4⟩ :=
    hpix 1 0 (by decide) (by decide) ⟨2, by decide, by decide⟩
  have e1 : twoPix = 48 := (Option.some.inj h1).symm
  subst e1
  have e2 : code = 12 := (Option.some.inj h2).symm
  subst e2
  have e3 : rgb = { r := 170, g := 0, b := 85 } := (Option.some.inj h3).symm
  subst e3
  exact ⟨tex, self1, st1, out, hdec, hout, h4⟩

/-- C3 fails on the code: `memset(decodePixels, 0, pixelCount)` clears
`pixelCount` bytes, a quarter of the buffer.  A 2 x 1 texture with a zero alpha
channel whose scratch buffer held `(170,0,85,255), (255,255,255,255)` before
the call keeps `(0,0,85,255), (255,255,255,255)` after a recomputing Decode. -/
theorem egaTextureDecode_stale_scratch :
    staleTexture.alphaChannel = some [0]
      ∧ staleTexture.decodeDirty = true
      ∧ (egaTextureDecode ColorStatics.initial staleTexture samplePalette).map
          (fun res => res.2.1.decodePixels)
        = some (some [{ r := 0, g := 0, b := 85, a := 255 },
                      { r := 255, g := 255, b := 255, a := 255 }]) := by
  decide

/-- C4 fails as stated: `egaTextureCreate(0,0)` starts from the zero-filled
struct, `egaTextureResize` sees unchanged dimensions and returns at once, so
`pixelSLWidth` stays 0, while `floor(0/2) + 1` is 1. -/
theorem egaTextureCreate_zero_pixelSLWidth :
    (egaTextureCreate 0 0).pixelSLWidth = 0
      ∧ (egaTextureCreate 0 0).pixelSLWidth ≠ 0 / 2 + (if 0 % 2 = 0 then 1 else 0) := by
  decide

/-- C4 (amended): for all `u32` dimensions `(w,h)` other than `(0,0)`, after
`egaTextureCreate(w,h)` the texture has
`pixelSLWidth = floor(w/2) + (1 if w is even else 0)`; `w = 4` gives 3. -/
theorem egaTextureCreate_pixelSLWidth (w h : Nat) (hw : w < 2 ^ 32) (_hh : h < 2 ^ 32)
    (hne : ¬ (w = 0 ∧ h = 0)) :
    (egaTextureCreate w h).pixelSLWidth = w / 2 + (if w % 2 = 0 then 1 else 0)
      ∧ (egaTextureCreate 4 h).pixelSLWidth = 3 := by
  constructor
  · unfold egaTextureCreate
    rw [egaTextureResize_changed _ _ _ (by simpa [EGATexture.zeroed] using hne)]
    exact pixelWidth_eq w hw
  · unfold egaTextureCreate
    rw [egaTextureResize_changed _ _ _ (by simp [EGATexture.zeroed])]
    rfl

/-- Witness for the amended C4 at `(6, 2)`. -/
theorem egaTextureCreate_pixelSLWidth_witness : (egaTextureCreate 6 2).pixelSLWidth = 4 :=
  (egaTextureCreate_pixelSLWidth 6 2 (by decide) (by decide) (by decide)).1

/-- C5: for all `u32` dimensions `(w,h)`, after `egaTextureCreate(w,h)` the
texture has `alphaSLWidth = ceil(w/8)`, the least number of bytes that hold `w`
bits; `w = 4` gives 1. -/
theorem egaTextureCreate_alphaSLWidth (w h : Nat) (hw : w < 2 ^ 32) (_hh : h < 2 ^ 32) :
    (egaTextureCreate w h).alphaSLWidth = (w + 7) / 8
      ∧ w ≤ 8 * (egaTextureCreate w h).alphaSLWidth
      ∧ 8 * (egaTextureCreate w h).alphaSLWidth < w + 8
      ∧ (egaTextureCreate 4 h).alphaSLWidth = 1 := by
  have key : ∀ v : Nat, v < 2 ^ 32 → (egaTextureCreate v h).alphaSLWidth = (v + 7) / 8 := by
    intro v hv
    by_cases h0 : v = 0 ∧ h = 0
    · obtain ⟨rfl, rfl⟩ := h0
      decide
    · unfold egaTextureCreate
      rw [egaTextureResize_changed _ _ _ (by simpa [EGATexture.zeroed] using h0)]
      exact alphaWidth_eq v hv
  refine ⟨key w hw, ?_, ?_, ?_⟩
  · rw [key w hw]; omega
  · rw [key w hw]; omega
  · rw [key 4 (by decide)]

/-- Witness for C5 at `(9, 2)`. -/
theorem egaTextureCreate_alphaSLWidth_witness : (egaTextureCreate 9 2).alphaSLWidth = 2 :=
  (egaTextureCreate_alphaSLWidth 9 2 (by decide) (by decide)).1

/-- C6 fails on the code: a texture of width 5 gets `pixelSLWidth = 2`, not
`floor(5/2) + 1 = 3`, so the scanline has no half-used last byte; decoding a
5 x 1 texture whose last pixel is opaque reads `pixelData[2]`, past the end of
the two-byte buffer. -/
theorem egaTextureCreate_odd_width_pixelSLWidth :
    (egaTextureCreate 5 1).pixelSLWidth = 2
      ∧ (egaTextureCreate 5 1).pixelData = some [0, 0]
      ∧ egaTextureDecode ColorStatics.initial
          { egaTextureCreate 5 1 with alphaChannel := some [16], decodeDirty := true }
          { colors := List.replicate 16 0 } = none := by
  decide

/-- C7 fails as stated: resizing the zero-filled texture from `(0,0)` to
`(1,1)` leaves both dirty flags false. -/
theorem egaTextureResize_flags_stay_false :
    ¬ (1 = EGATexture.zeroed.w ∧ 1 = EGATexture.zeroed.h)
      ∧ (egaTextureResize EGATexture.zeroed 1 1).decodeDirty = false
      ∧ (egaTextureResize EGATexture.zeroed 1 1).offsetDirty = false := by
  decide

/-- C7 (amended): `egaTextureResize` never writes the dirty flags, both keep
the value they had before the call; after `egaTextureCreate` both are false,
and the next Decode skips the unpack loop: it leaves the colour statics alone,
pushes nothing into the backend texture and hands back a zero scratch buffer. -/
theorem egaTextureResize_keeps_dirty_flags (self : EGATexture) (width height : Nat) :
    (egaTextureResize self width height).decodeDirty = self.decodeDirty
      ∧ (egaTextureResize self width height).offsetDirty = self.offsetDirty
      ∧ (egaTextureCreate width height).decodeDirty = false
      ∧ (egaTextureCreate width height).offsetDirty = false
      ∧ ∀ (st : ColorStatics) (palette : EGAPalette),
          egaTextureDecode st (egaTextureCreate width height) palette
            = some (textureCreateCustom width height,
                { egaTextureCreate width height with
                    decoded := some (textureCreateCustom width height),
                    decodePixels := checkedCallocRGBA
                      (egaTextureCreate width height).pixelCount },
                st) := by
  have hflags : ∀ (t : EGATexture) (a b : Nat),
      (egaTextureResize t a b).decodeDirty = t.decodeDirty
        ∧ (egaTextureResize t a b).offsetDirty = t.offsetDirty := by
    intro t a b
    by_cases hsame : a = t.w ∧ b = t.h
    · obtain ⟨rfl, rfl⟩ := hsame
      rw [egaTextureResize_same]
      exact ⟨rfl, rfl⟩
    · rw [egaTextureResize_changed t a b hsame]
      exact ⟨rfl, rfl⟩
  have hcreate : (egaTextureCreate width height).decodeDirty = false :=
    (hflags EGATexture.zeroed width height).1
  refine ⟨(hflags self width height).1, (hflags self width height).2, hcreate,
    (hflags EGATexture.zeroed width height).2, ?_⟩
  intro st palette
  by_cases hsame : width = 0 ∧ height = 0
  · obtain ⟨rfl, rfl⟩ := hsame
    rfl
  · have hshape := egaTextureResize_changed EGATexture.zeroed width height
      (by simpa [EGATexture.zeroed] using hsame)
    unfold egaTextureCreate
    rw [hshape]
    rfl

/-- C8: after `egaTextureDecode` returns, `decodeDirty` is false, and a second
`egaTextureDecode` (with any palette, in any state of the colour statics)
returns the same backend handle and leaves the whole texture state, the
scratch buffer included, and the colour statics unchanged: the unpack loop,
which would write both, is skipped. -/
theorem egaTextureDecode_idempotent (st : ColorStatics) (self : EGATexture)
    (palette : EGAPalette) (tex : Texture) (self1 : EGATexture) (st1 : ColorStatics)
    (hfirst : egaTextureDecode st self palette = some (tex, self1, st1)) :
    self1.decodeDirty = false
      ∧ ∀ (st2 : ColorStatics) (palette2 : EGAPalette),
          egaTextureDecode st2 self1 palette2 = some (tex, self1, st2) := by
  rw [egaTextureDecode_afterLazyAlloc] at hfirst
  have hskip : ∀ (t : EGATexture) (tx : Texture) (buf : List ColorRGBA) (s : ColorStatics)
      (p : EGAPalette), t.decoded = some tx → t.decodePixels = some buf →
      t.decodeDirty = false → egaTextureDecode s t p = some (tx, t, s) := by
    intro t tx buf s p h1 h2 h3
    unfold egaTextureDecode
    simp [h1, h2, h3]
  by_cases hd : self.decodeDirty = true
  · unfold egaTextureDecode at hfirst
    simp only [afterLazyAlloc, Option.isNone_some, Bool.false_eq_true, if_false, hd, if_true,
      Option.bind_eq_bind, Option.some_bind] at hfirst
    cases hms : memsetZero (self.decodePixels.getD
        (List.replicate self.pixelCount { r := 0, g := 0, b := 0, a := 0 })) self.pixelCount with
    | none =>
      rw [hms] at hfirst
      exact absurd hfirst (by simp)
    | some base =>
      rw [hms] at hfirst
      simp only [Option.some_bind] at hfirst
      rw [Option.bind_eq_some] at hfirst
      obtain ⟨fin, -, hres⟩ := hfirst
      simp only [Option.some.injEq, Prod.mk.injEq] at hres
      obtain ⟨rfl, rfl, rfl⟩ := hres
      exact ⟨rfl, fun st2 palette2 => hskip _ _ _ st2 palette2 rfl rfl rfl⟩
  · have hclean : self.decodeDirty = false := by
      cases hdd : self.decodeDirty
      · rfl
      · exact absurd hdd hd
    unfold egaTextureDecode at hfirst
    simp only [afterLazyAlloc, Option.isNone_some, Bool.false_eq_true, if_false, hclean,
      Option.bind_eq_bind, Option.some_bind, Option.some.injEq, Prod.mk.injEq] at hfirst
    obtain ⟨rfl, rfl, rfl⟩ := hfirst
    exact ⟨rfl, fun st2 palette2 => hskip _ _ _ st2 palette2 rfl rfl rfl⟩

/-- Witness for C8: the sample texture is decoded, and decoded again with an
empty palette, with which a run of the unpack loop would read out of bounds at
the opaque pixel. -/
theorem egaTextureDecode_idempotent_witness :
    egaTextureDecode ColorStatics.initial sampleTexture samplePalette = some sampleDecoded
      ∧ sampleDecoded.2.1.decodeDirty = false
      ∧ egaTextureDecode ColorStatics.initial sampleDecoded.2.1 { colors := [] }
          = some (sampleDecoded.1, sampleDecoded.2.1, ColorStatics.initial) :=
  have hfirst : egaTextureDecode ColorStatics.initial sampleTexture samplePalette
      = some sampleDecoded := by decide
  ⟨hfirst,
   (egaTextureDecode_idempotent ColorStatics.initial sampleTexture samplePalette
      sampleDecoded.1 sampleDecoded.2.1 sampleDecoded.2.2 hfirst).1,
   (egaTextureDecode_idempotent ColorStatics.initial sampleTexture samplePalette
      sampleDecoded.1 sampleDecoded.2.1 sampleDecoded.2.2 hfirst).2 _ _⟩

/-- C9: `egaTextureResize` called with the texture's current width and height
returns the texture state unchanged in every field. -/
theorem egaTextureResize_same_dimensions (self : EGATexture) :
    egaTextureResize self self.w self.h = self :=
  egaTextureResize_same self

/-- C10: after `egaTextureResize` to dimensions different from the current
ones, `alphaChannel` has `h * alphaSLWidth` bytes and `pixelData` has
`h * pixelSLWidth` bytes, every byte of both is zero, and `pixelDataOffset`,
`decodePixels` and the decoded backend texture are absent. -/
theorem egaTextureResize_fresh_buffers (self : EGATexture) (width height : Nat)
    (hne : ¬ (width = self.w ∧ height = self.h)) :
    (∃ alpha, (egaTextureResize self width height).alphaChannel = some alpha
        ∧ alpha.length = (egaTextureResize self width height).h
            * (egaTextureResize self width height).alphaSLWidth
        ∧ ∀ v ∈ alpha, v = 0)
      ∧ (∃ pd, (egaTextureResize self width height).pixelData = some pd
        ∧ pd.length = (egaTextureResize self width height).h
            * (egaTextureResize self width height).pixelSLWidth
        ∧ ∀ v ∈ pd, v = 0)
      ∧ (egaTextureResize self width height).pixelDataOffset = none
      ∧ (egaTextureResize self width height).decodePixels = none
      ∧ (egaTextureResize self width height).decoded = none := by
  rw [egaTextureResize_changed self width height hne]
  refine ⟨⟨_, rfl, ?_, ?_⟩, ⟨_, rfl, ?_, ?_⟩, rfl, rfl, rfl⟩
  · simp
  · intro v hv
    exact (List.mem_replicate.mp hv).2
  · simp
  · intro v hv
    exact (List.mem_replicate.mp hv).2

/-- Witness for C10: resizing a 2 x 1 texture to 3 x 2. -/
theorem egaTextureResize_fresh_buffers_witness :
    (egaTextureResize (egaTextureCreate 2 1) 3 2).decodePixels = none :=
  (egaTextureResize_fresh_buffers (egaTextureCreate 2 1) 3 2 (by decide)).2.2.2.1

/-- C11: in every texture reachable from `egaTextureCreate` by
`egaTextureResize` and `egaTextureDecode` calls, `alphaChannel` holds
`h * alphaSLWidth` bytes, `pixelData` holds `h * pixelSLWidth` bytes, and
`decodePixels` is absent or holds exactly `pixelCount` quads, `pixelCount` being
the `u32` product of the current `w` and `h`.  The two byte buffers are present
except in the 0 x 0 texture, where they may be NULL. -/
theorem produced_buffer_sizes (t : EGATexture) (ht : Produced t) :
    holdsBytes t.alphaChannel (t.h * t.alphaSLWidth)
      ∧ holdsBytes t.pixelData (t.h * t.pixelSLWidth)
      ∧ (t.decodePixels = none
          ∨ ∃ buf, t.decodePixels = some buf ∧ buf.length = t.pixelCount)
      ∧ t.pixelCount = u32 (t.w * t.h)
      ∧ (t.alphaChannel = none ∨ t.pixelData = none → t.w = 0 ∧ t.h = 0) := by
  have hc := produced_consistent t ht
  refine ⟨?_, ?_, ?_, hc.count, ?_⟩
  · rcases hc.buffers with ⟨ha, -, -, h0, -⟩ | ⟨alpha, pd, ha, hal, -, -, -, -, -⟩
    · rw [ha, h0]
      show 0 * t.alphaSLWidth = 0
      exact Nat.zero_mul _
    · rw [ha]
      exact hal
  · rcases hc.buffers with ⟨-, hp, -, h0, -⟩ | ⟨alpha, pd, -, -, -, hp, hpl, -, -⟩
    · rw [hp, h0]
      show 0 * t.pixelSLWidth = 0
      exact Nat.zero_mul _
    · rw [hp]
      exact hpl
  · rcases hc.scratch with h | h
    · exact Or.inl h
    · exact Or.inr ⟨_, h, by simp⟩
  · intro hnone
    rcases hc.buffers with ⟨-, -, hw, hh, -⟩ | ⟨alpha, pd, ha, -, -, hp, -, -, -⟩
    · exact ⟨hw, hh⟩
    · rcases hnone with h | h
      · rw [ha] at h
        exact absurd h (by simp)
      · rw [hp] at h
        exact absurd h (by simp)

/-- Witness for C11: a 3 x 2 texture, resized to 5 x 3 and decoded. -/
theorem produced_buffer_sizes_witness :
    holdsBytes (afterLazyAlloc (egaTextureResize (egaTextureCreate 3 2) 5 3)).alphaChannel 3
      ∧ holdsBytes (afterLazyAlloc (egaTextureResize (egaTextureCreate 3 2) 5 3)).pixelData 6
      ∧ (afterLazyAlloc (egaTextureResize (egaTextureCreate 3 2) 5 3)).decodePixels
          = some (List.replicate 15 { r := 0, g := 0, b := 0, a := 0 }) :=
  have hp : Produced (afterLazyAlloc (egaTextureResize (egaTextureCreate 3 2) 5 3)) :=
    Produced.decode
      (Produced.resize 5 3 (by decide) (by decide)
        (Produced.create 3 2 (by decide) (by decide)))
      (egaTextureDecode_clean ColorStatics.initial _ samplePalette (by decide))
  ⟨(produced_buffer_sizes _ hp).1, (produced_buffer_sizes _ hp).2.1, by decide⟩

/-- C12: after `egaTextureCreate(w,h)` and after a later
`egaTextureResize(w',h')` the accessors return the requested width and height
and the full region `{0, 0, width, height}`; `egaTextureDecode` returns and
changes none of the three. -/
theorem accessors_follow_resize (t : EGATexture) (width height : Nat) (ht : Produced t)
    (hw : width < 2 ^ 32) (hh : height < 2 ^ 32) :
    (egaTextureGetWidth (egaTextureCreate width height) = width
        ∧ egaTextureGetHeight (egaTextureCreate width height) = height
        ∧ egaTextureGetFullRegion (egaTextureCreate width height)
            = { left := 0, top := 0, width := width, height := height })
      ∧ (egaTextureGetWidth (egaTextureResize t width height) = width
        ∧ egaTextureGetHeight (egaTextureResize t width height) = height
        ∧ egaTextureGetFullRegion (egaTextureResize t width height)
            = { left := 0, top := 0, width := width, height := height })
      ∧ ∀ (st : ColorStatics) (palette : EGAPalette),
          ∃ tex t1 st1, egaTextureDecode st t palette = some (tex, t1, st1)
            ∧ egaTextureGetWidth t1 = egaTextureGetWidth t
            ∧ egaTextureGetHeight t1 = egaTextureGetHeight t
            ∧ egaTextureGetFullRegion t1 = egaTextureGetFullRegion t := by
  have key : ∀ s : EGATexture, Consistent s →
      (egaTextureResize s width height).w = width
        ∧ (egaTextureResize s width height).h = height
        ∧ (egaTextureResize s width height).fullRegion
            = { left := 0, top := 0, width := width, height := height } := by
    intro s hs
    by_cases hsame : width = s.w ∧ height = s.h
    · obtain ⟨rfl, rfl⟩ := hsame
      rw [egaTextureResize_same]
      exact ⟨rfl, rfl, hs.region⟩
    · rw [egaTextureResize_changed s width height hsame]
      exact ⟨rfl, rfl, rfl⟩
  refine ⟨key EGATexture.zeroed consistent_zeroed, key t (produced_consistent t ht), ?_⟩
  intro st palette
  exact ⟨_, _, _, egaTextureDecode_clean st t palette (produced_consistent t ht).clean,
    rfl, rfl, rfl⟩

/-- Witness for C12: a 4 x 2 texture resized to 7 x 3. -/
theorem accessors_follow_resize_witness :
    egaTextureGetWidth (egaTextureResize (egaTextureCreate 4 2) 7 3) = 7
      ∧ egaTextureGetHeight (egaTextureResize (egaTextureCreate 4 2) 7 3) = 3
      ∧ egaTextureGetFullRegion (egaTextureResize (egaTextureCreate 4 2) 7 3)
          = { left := 0, top := 0, width := 7, height := 3 } :=
  (accessors_follow_resize (egaTextureCreate 4 2) 7 3
    (Produced.create 4 2 (by decide) (by decide)) (by decide) (by decide)).2.1

/-- C13: starting from the initial statics (table not loaded), every call of
`egaGetColor` with a code `c` in 0..63, the first one (which builds the table)
and every later one in any order of codes, returns the entry of the freshly
built table at `c`; afterwards the table is loaded and equal to the freshly
built one, and a call that finds the table loaded leaves the statics as they
were. -/
theorem egaGetColor_memoized (st : ColorStatics) (c : Nat)
    (hst : ColorStatics.Reachable st) (hc : c < 64) :
    ∃ rgb st1, egaGetColor st c = some (rgb, st1)
      ∧ (_buildColorTable ColorStatics.initial.lookup)[c]? = some rgb
      ∧ st1.loaded = true
      ∧ st1.lookup = _buildColorTable ColorStatics.initial.lookup
      ∧ (st.loaded = true → st1 = st)
      ∧ ∀ rgb2 st2, egaGetColor st1 c = some (rgb2, st2) → rgb2 = rgb ∧ st2 = st1 := by
  refine ⟨specColor c, ColorStatics.built, egaGetColor_reachable st hst c hc,
    builtTable_get c hc, rfl, rfl, ?_, ?_⟩
  · intro hl
    rcases reachable_cases st hst with h | h
    · rw [h] at hl
      exact absurd hl (by decide)
    · exact h.symm
  · intro rgb2 st2 h2
    rw [egaGetColor_built c hc] at h2
    simp only [Option.some.injEq, Prod.mk.injEq] at h2
    exact ⟨h2.1.symm, h2.2.symm⟩

/-- Witness for C13: the first call of the program, with code 7. -/
theorem egaGetColor_memoized_witness :
    ∃ rgb st1, egaGetColor ColorStatics.initial 7 = some (rgb, st1)
      ∧ (_buildColorTable ColorStatics.initial.lookup)[7]? = some rgb
      ∧ st1.loaded = true
      ∧ st1.lookup = _buildColorTable ColorStatics.initial.lookup
      ∧ (ColorStatics.initial.loaded = true → st1 = ColorStatics.initial)
      ∧ ∀ rgb2 st2, egaGetColor st1 7 = some (rgb2, st2) → rgb2 = rgb ∧ st2 = st1 :=
  egaGetColor_memoized ColorStatics.initial 7 ColorStatics.Reachable.start (by decide)

/-- C14 fails on the code: in the texture `egaTextureCreate(5,1)` the last
pixel `x = 4` reads the index byte `x >> 1 = 2`, but the scanline has
`pixelSLWidth = 2` bytes and the whole buffer `h * pixelSLWidth = 2` bytes, so
the byte lies neither in the scanline nor in the buffer. -/
theorem odd_width_index_byte_outside :
    (egaTextureCreate 5 1).w = 5 ∧ (egaTextureCreate 5 1).h = 1
      ∧ (egaTextureCreate 5 1).pixelSLWidth = 2
      ∧ ¬ (4 >>> 1 < (egaTextureCreate 5 1).pixelSLWidth)
      ∧ ¬ (0 * (egaTextureCreate 5 1).pixelSLWidth + (4 >>> 1)
            < (egaTextureCreate 5 1).h * (egaTextureCreate 5 1).pixelSLWidth)
      ∧ (egaTextureCreate 5 1).pixelData = some [0, 0] := by
  decide

/-- C15: in every texture produced by Create/Resize whose `w * h` is below
`2^32`, for all `x < w`, `y < h` the alpha read and the output write of the
Decode loop are in bounds: `y*alphaSLWidth + (x>>3) < h*alphaSLWidth` and
`y*w + x < pixelCount`; the `u32` positions the loop computes are these
indices, inside the alpha buffer and inside the scratch buffer. -/
theorem decode_accesses_in_bounds (t : EGATexture) (x y : Nat) (ht : Produced t)
    (hsmall : t.w * t.h < 2 ^ 32) (hx : x < t.w) (hy : y < t.h) :
    y * t.alphaSLWidth + (x >>> 3) < t.h * t.alphaSLWidth
      ∧ y * t.w + x < t.pixelCount
      ∧ (∃ alpha, t.alphaChannel = some alpha
          ∧ u32 (u32 (y * t.alphaSLWidth) + (x >>> 3)) = y * t.alphaSLWidth + (x >>> 3)
          ∧ y * t.alphaSLWidth + (x >>> 3) < alpha.length)
      ∧ u32 (u32 (y * t.w) + x) = y * t.w + x
      ∧ ∀ buf, t.decodePixels = some buf → y * t.w + x < buf.length := by
  have hc := produced_consistent t ht
  have hcount : t.pixelCount = t.w * t.h := by
    rw [hc.count]
    exact u32_of_lt hsmall
  have hx8 : x / 8 < t.alphaSLWidth := by
    rw [hc.alphaWidth]
    omega
  have ha : y * t.alphaSLWidth + x / 8 < t.h * t.alphaSLWidth := by
    rw [Nat.mul_comm t.h]
    exact row_index_lt hx8 hy
  have hd : y * t.w + x < t.w * t.h := row_index_lt hx hy
  have hle : t.h * t.alphaSLWidth ≤ t.w * t.h := by
    rw [Nat.mul_comm t.w]
    apply Nat.mul_le_mul_left
    rw [hc.alphaWidth]
    omega
  rw [shiftRight_three_eq]
  refine ⟨ha, by rw [hcount]; exact hd, ?_, ?_, ?_⟩
  · rcases hc.buffers with ⟨-, -, hw0, -, -⟩ | ⟨alpha, pd, hal, hlen, -, -, -, -, -⟩
    · omega
    · refine ⟨alpha, hal, ?_, by rw [hlen]; exact ha⟩
      rw [u32_add_u32]
      exact u32_of_lt (by omega)
  · rw [u32_add_u32]
    exact u32_of_lt (by omega)
  · intro buf hbuf
    rcases hc.scratch with h | h
    · rw [h] at hbuf
      exact absurd hbuf (by simp)
    · rw [h] at hbuf
      have hb : buf = List.replicate t.pixelCount { r := 0, g := 0, b := 0, a := 0 } :=
        (Option.some.inj hbuf).symm
      rw [hb, List.length_replicate, hcount]
      exact hd

/-- Witness for C15: the last pixel of a decoded 9 x 2 texture. -/
theorem decode_accesses_in_bounds_witness :
    1 * (afterLazyAlloc (egaTextureCreate 9 2)).alphaSLWidth + (8 >>> 3)
        < (afterLazyAlloc (egaTextureCreate 9 2)).h
            * (afterLazyAlloc (egaTextureCreate 9 2)).alphaSLWidth
      ∧ 1 * (afterLazyAlloc (egaTextureCreate 9 2)).w + 8
        < (afterLazyAlloc (egaTextureCreate 9 2)).pixelCount :=
  have hp : Produced (afterLazyAlloc (egaTextureCreate 9 2)) :=
    Produced.decode (Produced.create 9 2 (by decide) (by decide))
      (egaTextureDecode_clean ColorStatics.initial _ samplePalette (by decide))
  ⟨(decode_accesses_in_bounds _ 8 1 hp (by decide) (by decide) (by decide)).1,
   (decode_accesses_in_bounds _ 8 1 hp (by decide) (by decide) (by decide)).2.1⟩

/-- C16 fails as stated: resizing the 0 x 0 texture to 65536 x 65536 leaves
`pixelCount = 0`, the product reduced modulo `2^32`, not `65536 * 65536`. -/
theorem egaTextureResize_pixelCount_wraps :
    ¬ (65536 = EGATexture.zeroed.w ∧ 65536 = EGATexture.zeroed.h)
      ∧ 65536 < 2 ^ 32
      ∧ (egaTextureResize EGATexture.zeroed 65536 65536).pixelCount = 0
      ∧ (egaTextureResize EGATexture.zeroed 65536 65536).pixelCount ≠ 65536 * 65536 := by
  rw [egaTextureResize_changed EGATexture.zeroed 65536 65536 (by decide)]
  decide

/-- C16 (amended): for `u32` dimensions with `w * h < 2^32`, after
`egaTextureResize` of a produced texture to `(w,h)`, different from the current
dimensions, `pixelCount` is the product `w * h`, and the scratch buffer that
the next Decode allocates from it has `w * h` entries. -/
theorem egaTextureResize_pixelCount (t : EGATexture) (width height : Nat)
    (ht : Produced t) (hw : width < 2 ^ 32) (hh : height < 2 ^ 32)
    (hne : ¬ (width = t.w ∧ height = t.h)) (hsmall : width * height < 2 ^ 32) :
    (egaTextureResize t width height).pixelCount = width * height
      ∧ ∀ (st : ColorStatics) (palette : EGAPalette),
          ∃ tex t1 st1 buf,
            egaTextureDecode st (egaTextureResize t width height) palette = some (tex, t1, st1)
              ∧ t1.decodePixels = some buf ∧ buf.length = width * height := by
  have hp : Produced (egaTextureResize t width height) := Produced.resize width height hw hh ht
  have hclean := (produced_consistent _ hp).clean
  have hshape := egaTextureResize_changed t width height hne
  have hcount : (egaTextureResize t width height).pixelCount = width * height := by
    rw [hshape]
    exact u32_of_lt hsmall
  have hnone : (egaTextureResize t width height).decodePixels = none := by
    rw [hshape]
  refine ⟨hcount, ?_⟩
  intro st palette
  refine ⟨_, _, _, _, egaTextureDecode_clean st _ palette hclean, rfl, ?_⟩
  rw [hnone]
  simp [hcount]

/-- Witness for the amended C16: a 2 x 1 texture resized to 300 x 200. -/
theorem egaTextureResize_pixelCount_witness :
    (egaTextureResize (egaTextureCreate 2 1) 300 200).pixelCount = 300 * 200 :=
  (egaTextureResize_pixelCount (egaTextureCreate 2 1) 300 200
    (Produced.create 2 1 (by decide) (by decide)) (by decide) (by decide) (by decide)
    (by decide)).1

/-- C17: `egaGetColor` is injective on 0..63 (two different 6-bit codes never
map to the same RGB triple, in whatever reachable states the two calls are
made), and every channel of every result is one of 0, 85, 170, 255. -/
theorem egaGetColor_injective (st1 st2 : ColorStatics) (c d : Nat)
    (h1 : ColorStatics.Reachable st1) (h2 : ColorStatics.Reachable st2)
    (hc : c < 64) (hd : d < 64) :
    ((egaGetColor st1 c).map Prod.fst = (egaGetColor st2 d).map Prod.fst → c = d)
      ∧ ∃ rgb, (egaGetColor st1 c).map Prod.fst = some rgb
          ∧ (rgb.r = 0 ∨ rgb.r = 85 ∨ rgb.r = 170 ∨ rgb.r = 255)
          ∧ (rgb.g = 0 ∨ rgb.g = 85 ∨ rgb.g = 170 ∨ rgb.g = 255)
          ∧ (rgb.b = 0 ∨ rgb.b = 85 ∨ rgb.b = 170 ∨ rgb.b = 255) := by
  rw [egaGetColor_reachable st1 h1 c hc, egaGetColor_reachable st2 h2 d hd]
  constructor
  · intro h
    simp only [Option.map_some', Option.some.injEq] at h
    exact specColor_injective c d hc hd h
  · exact ⟨specColor c, rfl, specColor_channels c hc⟩

/-- Witness for C17: codes 9 and 36, the second call made after the first. -/
theorem egaGetColor_injective_witness :
    (egaGetColor ColorStatics.initial 9).map Prod.fst
        ≠ (egaGetColor ColorStatics.built 36).map Prod.fst := by
  intro h
  exact absurd ((egaGetColor_injective ColorStatics.initial ColorStatics.built 9 36
    ColorStatics.Reachable.start reachable_built (by decide) (by decide)).1 h) (by decide)

/-- C19 fails on the code: `_fileEntryCompare` tests `e1->file == e1->file`,
which is always true, so it returns non-zero exactly when the two lines are
equal, whatever the files.  The entries (file 1, line 10) and (file 2, line 10)
compare equal, and with the identity as `hashPtr` their hashes differ. -/
theorem fileEntryCompare_ignores_file :
    (∀ e1 e2 : FileEntry, _fileEntryCompare e1 e2 ≠ 0 ↔ e1.line = e2.line)
      ∧ _fileEntryCompare { file := 1, line := 10, allocCount := 0 }
          { file := 2, line := 10, allocCount := 0 } = 1
      ∧ _fileEntryHash (fun p => p) { file := 1, line := 10, allocCount := 0 }
          ≠ _fileEntryHash (fun p => p) { file := 2, line := 10, allocCount := 0 } := by
  refine ⟨?_, by decide, by decide⟩
  intro e1 e2
  unfold _fileEntryCompare
  by_cases h : e1.line = e2.line <;> simp [h]

end Chron
